import Mathlib

/-!
Shallow embedding of two Rust exercise solutions:
  * `grep` (src/solutions/rust/grep/1/src/lib.rs), and
  * `list-ops` (src/solutions/rust/list-ops/2/src/lib.rs).

The grep embedding models the external file system explicitly: each input
source is either a file that fails to open, or a file whose reads yield a
list of raw line buffers and then either end-of-file or a read error
(`readFail`).  The Rust `while let Ok(length) = reader.read_line(..) && length != 0`
loop ends on either outcome, which the embedding reflects.  Rust's
`panic!` in `Flags::new` is modelled as the distinguished `panicked`
outcome of `FlagsResult` (an abort, not a recoverable error value).
String case-folding abstracts Rust's `to_lowercase` as per-character
lowering; the claims under study depend only on where the folding is
applied, never on the Unicode table itself.
-/

namespace GrepSol

/-- The flag record from the source; all fields default to `false`. -/
structure Flags where
  line_number : Bool := false
  files_with_matches : Bool := false
  ignore_case : Bool := false
  invert_match : Bool := false
  line_match : Bool := false
deriving DecidableEq

/-- Outcome of `Flags::new`: a constructed value, or a `panic!` abort
carrying the panic message (Rust panics are aborts, not return values). -/
inductive FlagsResult where
  | ok : Flags → FlagsResult
  | panicked : String → FlagsResult
deriving DecidableEq

/-- The five flag tokens recognized by `Flags::new`. -/
def recognizedFlag (t : String) : Bool :=
  t == "-n" || t == "-l" || t == "-i" || t == "-v" || t == "-x"

/-- The `for &flag in flags` loop body of `Flags::new`, processing tokens
left to right over the mutable `instance`. -/
def Flags.newGo (inst : Flags) : List String → FlagsResult
  | [] => FlagsResult.ok inst
  | flag :: rest =>
    if flag == "-n" then Flags.newGo { inst with line_number := true } rest
    else if flag == "-l" then Flags.newGo { inst with files_with_matches := true } rest
    else if flag == "-i" then Flags.newGo { inst with ignore_case := true } rest
    else if flag == "-v" then Flags.newGo { inst with invert_match := true } rest
    else if flag == "-x" then Flags.newGo { inst with line_match := true } rest
    else FlagsResult.panicked ("Unsupported flag " ++ flag)

/-- `Flags::new`: start from the all-false default and fold the tokens. -/
def Flags.new (flags : List String) : FlagsResult :=
  Flags.newGo {} flags

/-- Per-character lowercasing, abstracting Rust's `str::to_lowercase`. -/
def lowerStr (s : String) : String :=
  String.mk (s.toList.map Char.toLower)

/-- Rust's `str::trim_end`: drop trailing whitespace characters. -/
def trimEnd (s : String) : String :=
  String.mk ((s.toList.reverse.dropWhile Char.isWhitespace).reverse)

/-- Whether the first list is an initial segment of the second. -/
def charsPref : List Char → List Char → Bool
  | [], _ => true
  | _ :: _, [] => false
  | p :: ps, c :: cs => p == c && charsPref ps cs

/-- Whether `pat` occurs contiguously inside the second list. -/
def charsSub (pat : List Char) : List Char → Bool
  | [] => pat.isEmpty
  | c :: cs => charsPref pat (c :: cs) || charsSub pat cs

/-- Rust's `str::contains` with a literal string pattern (UTF-8 is
self-synchronizing, so byte containment of valid text coincides with
codepoint-sequence containment). -/
def strContains (s pat : String) : Bool :=
  charsSub pat.toList s.toList

/-- The `if flags.ignore_case { x.to_lowercase() } else { x.to_string() }`
block, applied in `grep` once to the pattern and once per line. -/
def caseAdjust (fl : Flags) (s : String) : String :=
  if fl.ignore_case then lowerStr s else s

/-- The `is_match` block of the grep loop: `pat` is the pattern as already
adjusted by `grep` before the loop. -/
def isMatch (fl : Flags) (pat line : String) : Bool :=
  let candidate := caseAdjust fl line
  if fl.line_match then candidate == pat else strContains candidate pat

/-- The inclusion test `flags.invert_match ^ is_match` of the grep loop. -/
def lineIncluded (fl : Flags) (pat line : String) : Bool :=
  Bool.xor fl.invert_match (isMatch fl pat line)

/-- The `format_result` function of the source. -/
def format_result (file_path : String) (line_number : Nat) (line : String)
    (fl : Flags) (multiple_files : Bool) : String :=
  if fl.files_with_matches then file_path
  else
    let filePathPart := if multiple_files then file_path ++ ":" else ""
    let lineNumberPart := if fl.line_number then toString line_number ++ ":" else ""
    filePathPart ++ lineNumberPart ++ line

/-- An input source as the file system presents it to `grep`: opening it
fails, or reading yields the listed raw line buffers and then stops
(end-of-file when `readFail` is `false`, a read error when it is `true`;
the source's `while let Ok(..)` loop ends the same way on both). -/
inductive Source where
  | openFail : Source
  | readable : (lines : List String) → (readFail : Bool) → Source
deriving DecidableEq

/-- The error channel of `grep` (the `?` on `File::open`). -/
inductive GrepError where
  | openError : String → GrepError
deriving DecidableEq

/-- Decidable equality on `Except`, so closed runs evaluate by `decide`. -/
instance {ε α : Type} [DecidableEq ε] [DecidableEq α] : DecidableEq (Except ε α) :=
  fun a b =>
    match a, b with
    | Except.ok x, Except.ok y =>
      if h : x = y then isTrue (by rw [h]) else isFalse (by intro hh; cases hh; exact h rfl)
    | Except.error x, Except.error y =>
      if h : x = y then isTrue (by rw [h]) else isFalse (by intro hh; cases hh; exact h rfl)
    | Except.ok _, Except.error _ => isFalse (by intro h; cases h)
    | Except.error _, Except.ok _ => isFalse (by intro h; cases h)

/-- The `while let Ok(length) = reader.read_line(&mut buf) && length != 0`
loop of `grep` over one file: `line_number` starts at 1 and increments for
every line read; on an included line the formatted result is emitted and,
under `files_with_matches`, the loop breaks. -/
def scanLines (pat : String) (fl : Flags) (mf : Bool) (file_path : String) :
    List String → Nat → List String
  | [], _ => []
  | raw :: rest, line_number =>
    let line := trimEnd raw
    if lineIncluded fl pat line then
      if fl.files_with_matches then
        [format_result file_path line_number line fl mf]
      else
        format_result file_path line_number line fl mf ::
          scanLines pat fl mf file_path rest (line_number + 1)
    else scanLines pat fl mf file_path rest (line_number + 1)

/-- The `for &file_path in files` loop of `grep`: opening a file may fail
(propagated by `?`, discarding everything accumulated); a readable file is
scanned from line number 1, and a read error mid-file merely ends that
file's loop. -/
def grepGo (pat : String) (fl : Flags) (mf : Bool) :
    List (String × Source) → Except GrepError (List String)
  | [] => Except.ok []
  | (file_path, Source.openFail) :: _ => Except.error (GrepError.openError file_path)
  | (file_path, Source.readable lines _) :: rest =>
    match grepGo pat fl mf rest with
    | Except.error e => Except.error e
    | Except.ok rs => Except.ok (scanLines pat fl mf file_path lines 1 ++ rs)

/-- The `grep` entry point: `multiple_files = files.len() > 1`, and the
pattern is case-adjusted once, before any file is opened. -/
def grep (pattern : String) (fl : Flags) (files : List (String × Source)) :
    Except GrepError (List String) :=
  grepGo (caseAdjust fl pattern) fl (decide (1 < files.length)) files

/-- Counting wrapper around `lowerStr`: the result plus one fold event. -/
def lowerCounted (s : String) : String × Nat :=
  (lowerStr s, 1)

/-- `grep` instrumented to report how many times the query string is
case-folded during the run: the fold site sits before the file loop, so
the count is independent of the files and their lines. -/
def grepInstr (pattern : String) (fl : Flags) (files : List (String × Source)) :
    Except GrepError (List String) × Nat :=
  let pk := if fl.ignore_case then lowerCounted pattern else (pattern, 0)
  (grepGo pk.1 fl (decide (1 < files.length)) files, pk.2)

/-- Modelled from the spec (section 4.3), for comparison with
`format_result`: under `onlyMatchingFiles` the output is exactly the
source name; otherwise the source-name prefix (iff multiple sources),
then the line-number prefix (iff `showLineNumbers`), then the line text. -/
def formatSpec (path : String) (n : Nat) (line : String) (fl : Flags) (mf : Bool) : String :=
  if fl.files_with_matches then path
  else (if mf then path ++ ":" else "") ++
    ((if fl.line_number then toString n ++ ":" else "") ++ line)

end GrepSol

namespace ListOps

/-- Repeatedly calling `next_back` on a double-ended list iterator yields
the items in reverse order: the denotation of the source's `reverse`. -/
def reverse (l : List α) : List α :=
  l.reverse

/-- The source's `foldl`: `acc = function(acc, item)` over the items in
order. -/
def foldl : List α → β → (β → α → β) → β
  | [], acc, _ => acc
  | x :: xs, acc, f => foldl xs (f acc x) f

/-- The source's `foldr`: `foldl` over the reversed sequence, with the
same accumulator-first combinator. -/
def foldr (l : List α) (initial : β) (f : β → α → β) : β :=
  foldl (reverse l) initial f

end ListOps

namespace GrepSol

/-- An empty pattern occurs in every character list. -/
theorem charsSub_nil (l : List Char) : charsSub [] l = true := by
  induction l with
  | nil => rfl
  | cons c cs ih => simp [charsSub, charsPref]

/-- Case adjustment sends the empty string to itself. -/
theorem caseAdjust_empty (fl : Flags) : caseAdjust fl "" = "" := by
  unfold caseAdjust lowerStr
  split <;> rfl

/-- Running the `Flags::new` token loop from any start state panics with a
message naming the first unrecognized token, whenever one is present. -/
theorem newGo_panic (tokens : List String) : ∀ (inst : Flags) (t : String),
    List.find? (fun s => !recognizedFlag s) tokens = some t →
    Flags.newGo inst tokens = FlagsResult.panicked ("Unsupported flag " ++ t) := by
  induction tokens with
  | nil => intro inst t h; simp [List.find?] at h
  | cons a rest ih =>
    intro inst t h
    rw [List.find?_cons] at h
    cases hrec : recognizedFlag a with
    | false =>
      rw [hrec] at h
      simp at h
      subst h
      have hs := hrec
      simp [recognizedFlag] at hs
      obtain ⟨⟨⟨⟨h1, h2⟩, h3⟩, h4⟩, h5⟩ := hs
      simp [Flags.newGo, h1, h2, h3, h4, h5]
    | true =>
      rw [hrec] at h
      simp at h
      by_cases h1 : a = "-n"
      · subst h1; simp [Flags.newGo]; exact ih _ t h
      · by_cases h2 : a = "-l"
        · subst h2; simp [Flags.newGo]; exact ih _ t h
        · by_cases h3 : a = "-i"
          · subst h3; simp [Flags.newGo]; exact ih _ t h
          · by_cases h4 : a = "-v"
            · subst h4; simp [Flags.newGo]; exact ih _ t h
            · by_cases h5 : a = "-x"
              · subst h5; simp [Flags.newGo]; exact ih _ t h
              · simp [recognizedFlag, h1, h2, h3, h4, h5] at hrec

/-- C1: a line matches exactly when the case-adjusted line equals the
case-adjusted query (full-line mode) or contains it as a contiguous
substring (otherwise; in particular the empty query matches every line),
and a line is included in the results exactly when
`invert_match XOR is_match` holds — shown both on the predicate used by
the scan loop and on a one-line single-file run of `grep`. -/
theorem match_predicate_characterization (fl : Flags) (q line : String) :
    lineIncluded fl (caseAdjust fl q) line
        = Bool.xor fl.invert_match (isMatch fl (caseAdjust fl q) line)
    ∧ isMatch fl (caseAdjust fl q) line
        = (if fl.line_match then caseAdjust fl line == caseAdjust fl q
           else strContains (caseAdjust fl line) (caseAdjust fl q))
    ∧ strContains (caseAdjust fl line) (caseAdjust fl "") = true
    ∧ (∀ path raw, grep q fl [(path, Source.readable [raw] false)]
        = Except.ok (if lineIncluded fl (caseAdjust fl q) (trimEnd raw)
                     then [format_result path 1 (trimEnd raw) fl false] else [])) := by
  refine ⟨rfl, rfl, ?_, ?_⟩
  · rw [caseAdjust_empty]
    exact charsSub_nil _
  · intro path raw
    by_cases hinc : lineIncluded fl (caseAdjust fl q) (trimEnd raw)
    · cases hf : fl.files_with_matches <;> simp [grep, grepGo, scanLines, hinc, hf]
    · simp [grep, grepGo, scanLines, hinc]

/-- C2 counterexample: on the unrecognized token `-z`, `Flags::new` does
not return a recoverable configuration-error value — it panics (an abort),
as the `panicked` outcome of the construction shows. -/
theorem flags_new_panics_on_unknown_token :
    Flags.new ["-z"] = FlagsResult.panicked "Unsupported flag -z" := by decide

/-- C2 amended: for every token list containing an unrecognized token,
`Flags::new` aborts with a panic whose message names the first such
token (rather than returning a recoverable configuration error). -/
theorem flags_new_panic_names_first_bad_token (tokens : List String) (t : String)
    (h : List.find? (fun s => !recognizedFlag s) tokens = some t) :
    Flags.new tokens = FlagsResult.panicked ("Unsupported flag " ++ t) :=
  newGo_panic tokens {} t h

/-- Witness for the amended C2 theorem at a concrete token list. -/
theorem flags_new_panic_names_first_bad_token_witness :
    Flags.new ["-n", "-z", "-q"] = FlagsResult.panicked "Unsupported flag -z" :=
  flags_new_panic_names_first_bad_token ["-n", "-z", "-q"] "-z" (by decide)

/-- C10: running grep over an empty list of sources succeeds with an empty
result list (no source is consulted at all). -/
theorem grep_empty_files (pattern : String) (fl : Flags) :
    grep pattern fl [] = Except.ok [] := rfl

/-- The `grep` file loop errors out (with the open failure of some listed
file, and no partial results) whenever any listed file fails to open. -/
theorem grepGo_openFail (pat : String) (fl : Flags) (mf : Bool) :
    ∀ files : List (String × Source), (∃ e ∈ files, e.2 = Source.openFail) →
    ∃ path, (path, Source.openFail) ∈ files ∧
      grepGo pat fl mf files = Except.error (GrepError.openError path) := by
  intro files
  induction files with
  | nil => rintro ⟨e, he, _⟩; cases he
  | cons hd rest ih =>
    rintro ⟨e, he, hfail⟩
    obtain ⟨p, src⟩ := hd
    cases src with
    | openFail =>
      exact ⟨p, List.mem_cons_self _ _, rfl⟩
    | readable lines b =>
      rcases List.mem_cons.mp he with rfl | hmem
      · cases hfail
      · obtain ⟨path, hpmem, heq⟩ := ih ⟨e, hmem, hfail⟩
        refine ⟨path, List.mem_cons_of_mem _ hpmem, ?_⟩
        simp [grepGo, heq]

/-- C3 counterexample: a source that yields one line and then fails to
read does not abort the run — `grep` returns a successful result carrying
the lines read before the failure, contradicting the claim that a source
that cannot be read aborts the whole run with an IOError. -/
theorem read_error_returns_ok_cex :
    grep "cat" {} [("a", Source.readable ["cat"] true)] = Except.ok ["cat"] := by decide

/-- C3 amended: if any source fails to open, the run aborts with an
IOError naming a failing source and carries no partial output; a read
failure mid-source, by contrast, is treated exactly like end-of-file (the
run's outcome is unchanged by it). -/
theorem open_error_aborts_run (pattern : String) (fl : Flags)
    (files : List (String × Source)) :
    ((∃ e ∈ files, e.2 = Source.openFail) →
      ∃ path, (path, Source.openFail) ∈ files ∧
        grep pattern fl files = Except.error (GrepError.openError path))
    ∧ (∀ path lines b rest,
        grep pattern fl ((path, Source.readable lines b) :: rest)
          = grep pattern fl ((path, Source.readable lines false) :: rest)) := by
  constructor
  · intro h
    exact grepGo_openFail (caseAdjust fl pattern) fl (decide (1 < files.length)) files h
  · intro path lines b rest
    rfl

/-- Witness for the amended C3 theorem: a run whose second source fails to
open ends in an open error, with the first source's match discarded. -/
theorem open_error_aborts_run_witness :
    ∃ path, (path, Source.openFail) ∈
        [("a", Source.readable ["cat"] false), ("b", Source.openFail)] ∧
      grep "cat" {} [("a", Source.readable ["cat"] false), ("b", Source.openFail)]
        = Except.error (GrepError.openError path) :=
  (open_error_aborts_run "cat" {} _).1 ⟨("b", Source.openFail), by decide, rfl⟩

/-- C4: under `files_with_matches`, a source contributes its name once if
any of its lines passes the combined `invert_match XOR is_match` test and
nothing otherwise; at most one result is produced per source, and the
first included line alone already determines the output (scanning stops
there, whatever follows). -/
theorem files_with_matches_single_result (fl : Flags) (pat : String) (mf : Bool)
    (path : String) (h : fl.files_with_matches = true) :
    (∀ lines n, scanLines pat fl mf path lines n =
        if lines.any (fun raw => lineIncluded fl pat (trimEnd raw)) then [path] else [])
    ∧ (∀ lines n, (scanLines pat fl mf path lines n).length ≤ 1)
    ∧ (∀ raw rest n, lineIncluded fl pat (trimEnd raw) = true →
        scanLines pat fl mf path (raw :: rest) n = [path]) := by
  have main : ∀ lines n, scanLines pat fl mf path lines n =
      if lines.any (fun raw => lineIncluded fl pat (trimEnd raw)) then [path] else [] := by
    intro lines
    induction lines with
    | nil => intro n; rfl
    | cons raw rest ih =>
      intro n
      by_cases hinc : lineIncluded fl pat (trimEnd raw)
      · simp [scanLines, hinc, h, format_result]
      · simp [scanLines, hinc, ih]
  refine ⟨main, ?_, ?_⟩
  · intro lines n
    rw [main lines n]
    split <;> simp
  · intro raw rest n hinc
    rw [main (raw :: rest) n]
    simp [hinc]

/-- Witness for the C4 theorem: a two-line source whose first line matches
yields exactly its name under `files_with_matches`. -/
theorem files_with_matches_single_result_witness :
    scanLines "a" ⟨false, true, false, false, false⟩ false "A" ["ab", "zz"] 1 = ["A"] := by
  have h := (files_with_matches_single_result ⟨false, true, false, false, false⟩
    "a" false "A" rfl).1 ["ab", "zz"] 1
  rw [h]
  decide

/-- C5: `format_result` produces exactly the source name under
`files_with_matches`, and otherwise the source-name prefix (iff multiple
files), then the line-number prefix (iff `line_number`), then the line
text — and with neither prefix the output is exactly the line text. -/
theorem format_result_matches_spec (path : String) (n : Nat) (line : String)
    (fl : Flags) (mf : Bool) :
    format_result path n line fl mf = formatSpec path n line fl mf
    ∧ (∀ ic iv lm : Bool,
        format_result path n line ⟨false, false, ic, iv, lm⟩ false = line) := by
  constructor
  · unfold format_result formatSpec
    split
    · rfl
    · rw [String.append_assoc]
  · intro ic iv lm
    rfl

/-- C6: with `ignore_case` set, the per-line match compares the lowered
line against the lowered query; the query is case-folded exactly once per
run however many files and lines are scanned; and the emitted text keeps
the line's original casing (query `CAT` matches line `cat food` and emits
`cat food`). -/
theorem ignore_case_behaviour (fl : Flags) (q line : String) (h : fl.ignore_case = true) :
    isMatch fl (caseAdjust fl q) line =
        (if fl.line_match then lowerStr line == lowerStr q
         else strContains (lowerStr line) (lowerStr q))
    ∧ (∀ pattern files, (grepInstr pattern fl files).2 = 1
        ∧ (grepInstr pattern fl files).1 = grep pattern fl files)
    ∧ grep "CAT" ⟨false, false, true, false, false⟩
        [("food", Source.readable ["cat food"] false)] = Except.ok ["cat food"] := by
  refine ⟨?_, ?_, by decide⟩
  · simp [isMatch, caseAdjust, h]
  · intro pattern files
    constructor
    · simp [grepInstr, h, lowerCounted]
    · simp [grepInstr, grep, caseAdjust, h, lowerCounted]

/-- Witness for the C6 theorem: with `ignore_case`, query `CAT` matches
the line `cat food`. -/
theorem ignore_case_behaviour_witness :
    isMatch ⟨false, false, true, false, false⟩
      (caseAdjust ⟨false, false, true, false, false⟩ "CAT") "cat food" = true := by
  have h := (ignore_case_behaviour ⟨false, false, true, false, false⟩ "CAT" "cat food" rfl).1
  rw [h]
  decide

/-- C9: outside `files_with_matches` mode, a source's results are exactly
the lines passing the inclusion test, each formatted with its 1-based
ordinal position among all lines read of that source (excluded lines
advance the counter too), and `grep` scans every source starting from
line number 1. -/
theorem line_numbers_count_every_line (fl : Flags) (pat : String) (mf : Bool)
    (path : String) (h : fl.files_with_matches = false) :
    (∀ lines n, scanLines pat fl mf path lines n =
        ((List.enumFrom n lines).filter fun e => lineIncluded fl pat (trimEnd e.2)).map
          fun e => format_result path e.1 (trimEnd e.2) fl mf)
    ∧ (∀ lines b rest rs, grepGo pat fl mf rest = Except.ok rs →
        grepGo pat fl mf ((path, Source.readable lines b) :: rest)
          = Except.ok (scanLines pat fl mf path lines 1 ++ rs)) := by
  constructor
  · intro lines
    induction lines with
    | nil => intro n; rfl
    | cons raw rest ih =>
      intro n
      by_cases hinc : lineIncluded fl pat (trimEnd raw)
      · simp [scanLines, hinc, h, List.enumFrom, List.filter_cons, ih]
      · simp [scanLines, hinc, List.enumFrom, List.filter_cons, ih]
  · intro lines b rest rs hok
    simp [grepGo, hok]

/-- Witness for the C9 theorem: with line numbers on, matches on lines 1
and 3 are numbered 1 and 3 — the non-matching line 2 still advanced the
counter. -/
theorem line_numbers_count_every_line_witness :
    scanLines "x" ⟨true, false, false, false, false⟩ false "f" ["ax", "b", "cx"] 1
      = ["1:ax", "3:cx"] := by
  have h := (line_numbers_count_every_line ⟨true, false, false, false, false⟩
    "x" false "f" rfl).1 ["ax", "b", "cx"] 1
  rw [h]
  decide

end GrepSol

namespace ListOps

/-- The source's `foldl` agrees with the standard left fold. -/
theorem foldl_eq_list_foldl (l : List α) : ∀ (i : β) (f : β → α → β),
    foldl l i f = List.foldl f i l := by
  induction l with
  | nil => intro i f; rfl
  | cons x xs ih => intro i f; simp [foldl, List.foldl, ih]

/-- C7: `foldl` is the left-to-right accumulation
`f(...f(f(init, x0), x1)..., xn)`, and `foldr` — implemented by folding
the reversed sequence — is the right-to-left accumulation
`f(x0, f(x1, ...f(xn, init)))` (with the accumulator as `f`'s first
argument throughout, as in the source). -/
theorem fold_accumulation_spec (l : List α) (i : β) (f : β → α → β) :
    foldl l i f = List.foldl f i l
    ∧ foldr l i f = List.foldr (fun x acc => f acc x) i l
    ∧ foldr l i f = foldl (reverse l) i f := by
  refine ⟨foldl_eq_list_foldl l i f, ?_, rfl⟩
  show foldl (reverse l) i f = _
  rw [foldl_eq_list_foldl]
  exact List.foldl_reverse l f i

/-- C8: reversing a finite sequence twice yields the original sequence. -/
theorem reverse_reverse_id (l : List α) : reverse (reverse l) = l :=
  List.reverse_reverse l

end ListOps
